import Mathlib

/-!
# NextBeat scheduling/codec core: shallow embedding and verification

This file embeds the scheduling and MIDI import/export core of the NextBeat
DAW (frontend/hooks/usePlayback.ts, frontend/utils midi codec,
backend/src/agent/llm.ts) in Lean 4 and proves or refutes the frozen
specification claims about it.

Numbers are modelled as rationals (`ℚ`): the TypeScript source computes in
IEEE doubles, but every computation the claims exercise is exact rational
arithmetic with explicit rounding points (`Math.round`, `Math.ceil`,
`Math.min`, `Math.max`), so `ℚ` with explicit rounding functions is the
faithful total model.

The external `@tonejs/midi` byte codec is not part of the repository; the
wire layer (7-bit note/velocity bytes, integer ticks at 480 ppq) is
modelled from the spec's description of the MIDI file format (spec §6) and
marked `Modelled from the spec:` at each such definition.
-/

namespace NextBeat

/-- JavaScript `Math.round`: round half toward positive infinity. -/
def jround (q : ℚ) : ℤ := ⌊q + 1/2⌋

/-- JavaScript `x || d` on numbers: the default replaces `0` (and `NaN`,
which the rational model cannot produce). -/
def jsOr (x d : ℚ) : ℚ := if x = 0 then d else x

/-- Clamp an integer into the 7-bit MIDI data-byte range `[0,127]`. -/
def clamp7 (z : ℤ) : ℤ := min 127 (max 0 z)

/-- `Math.min(...l)` over a nonempty list of numbers (the source only
applies it to nonempty arrays; `0` is an arbitrary value for `[]`). -/
def minListQ : List ℚ → ℚ
  | [] => 0
  | x :: xs => xs.foldl min x

/-- `Math.max(...l)` over a nonempty list of numbers. -/
def maxListQ : List ℚ → ℚ
  | [] => 0
  | x :: xs => xs.foldl max x

/-! ## Data model (frontend/types/project.ts as used by the core) -/

/-- A MIDI note of the project data model: `pitch` 0–127, `startTick`
relative to the containing clip, `durationTick`, `velocity` 0–127,
`channel`.  Fields are rationals because the TypeScript fields are
`number`s and the import path stores non-integer values. -/
structure MidiNote where
  pitch : ℚ
  startTick : ℚ
  durationTick : ℚ
  velocity : ℚ
  channel : ℚ
  deriving DecidableEq, Repr

/-- A project track (the fields the scheduling/codec core reads). -/
structure Track where
  id : String
  name : String
  instrument : Option String
  volume : ℚ
  pan : ℚ
  mute : Bool
  deriving DecidableEq, Repr

/-- A MIDI clip: a note container placed on the timeline via arrangement
clips. -/
structure MidiClip where
  id : String
  trackId : String
  startBar : ℚ
  lengthBars : ℚ
  notes : List MidiNote
  deriving DecidableEq, Repr

/-- An arrangement clip: places clip data on a track at an absolute bar. -/
structure ArrangementClip where
  id : String
  trackId : String
  startBar : ℚ
  lengthBars : ℚ
  clipType : String
  clipDataId : String
  deriving DecidableEq, Repr

/-- Time signature, numerator and denominator. -/
structure TimeSig where
  numerator : ℚ
  denominator : ℚ
  deriving DecidableEq, Repr

/-- The project aggregate root (fields the core reads). -/
structure Project where
  tempo : ℚ
  timeSignature : TimeSig
  tracks : List Track
  midiClips : List MidiClip
  arrangementClips : List ArrangementClip
  deriving DecidableEq, Repr

/-! ## Time base converter (frontend/utils/midiExport.ts lines 10–18) -/

/-- `TICKS_PER_QUARTER_NOTE = 480` (fixed MIDI resolution). -/
def TICKS_PER_QUARTER_NOTE : ℚ := 480

/-- `TICKS_PER_BAR = 1920` (4/4 assumption of the export/playback path). -/
def TICKS_PER_BAR : ℚ := 1920

/-- `ticksToSeconds(ticks, tempo) = (ticks / 480) * (60 / tempo)`
(midiExport.ts line 15). -/
def ticksToSeconds (ticks tempo : ℚ) : ℚ :=
  (ticks / TICKS_PER_QUARTER_NOTE) * (60 / tempo)

/-- The inverse conversion used by the import path
(`Math.round((time * tempo / 60) * 480)`, midiExport.ts line 241),
before its final rounding. -/
def secondsToTicksRaw (seconds tempo : ℚ) : ℚ :=
  seconds * tempo / 60 * TICKS_PER_QUARTER_NOTE

/-! ## Event scheduler (frontend/hooks/usePlayback.ts lines 10–12, 77–190)

`scheduleNotes` is embedded per track: the hook iterates the tracks that
have unmuted, instrument-resolved midi arrangement clips and, for each,
runs the grouping/sorting/adjusting pass below over the collected
`(clipStartBars, note)` pairs.  The emitted `Tone.ToneEvent`s are modelled
by the `Trigger` type, recording the adjusted start position passed to
`event.start(...)` and the notes the event plays. -/

/-- `ticksToBars(ticks) = ticks / 1920` (usePlayback.ts line 10). -/
def ticksToBars (ticks : ℚ) : ℚ := ticks / TICKS_PER_BAR

/-- Rounding to 4 decimal places of a bar:
`Math.round(x * 10000) / 10000` (usePlayback.ts line 95). -/
def round4 (q : ℚ) : ℚ := (jround (q * 10000) : ℚ) / 10000

/-- The rounded, tempo-scaled start position of a note
(usePlayback.ts lines 90–95): `clipStartBars + ticksToBars(startTick)`,
divided by `tempo / 240`, rounded to 4 decimals. -/
def scaledStart (tempo clipStartBars : ℚ) (n : MidiNote) : ℚ :=
  round4 ((clipStartBars + ticksToBars n.startTick) / (tempo / 240))

/-- One scheduled `Tone.ToneEvent`: either a chord trigger covering a
whole simultaneous group, or an individual note trigger.  The first field
is the adjusted start position passed to `event.start`. -/
inductive Trigger where
  | chord (startBars : ℚ) (notes : List MidiNote)
  | single (startBars : ℚ) (note : MidiNote)
  deriving DecidableEq, Repr

/-- The adjusted start position of a trigger. -/
def Trigger.startBars : Trigger → ℚ
  | .chord s _ => s
  | .single s _ => s

/-- The number of notes a trigger plays. -/
def Trigger.noteCount : Trigger → ℕ
  | .chord _ ns => ns.length
  | .single _ _ => 1

/-- Insertion into the `notesByStartTime` map (usePlayback.ts lines
97–100): a JS `Map` keeps keys in insertion order and `push` appends. -/
def addToGroups (gs : List (ℚ × List MidiNote)) (k : ℚ) (n : MidiNote) :
    List (ℚ × List MidiNote) :=
  match gs with
  | [] => [(k, [n])]
  | (k', ns) :: rest =>
    if k' = k then (k', ns ++ [n]) :: rest
    else (k', ns) :: addToGroups rest k n

/-- Build the start-time groups of one track's notes
(usePlayback.ts lines 87–101). -/
def buildGroups (tempo : ℚ) (notes : List (ℚ × MidiNote)) :
    List (ℚ × List MidiNote) :=
  notes.foldl (fun gs cn => addToGroups gs (scaledStart tempo cn.1 cn.2) cn.2) []

/-- The events emitted for one start-time group at its adjusted start
(usePlayback.ts lines 134–186): a PolySynth group of more than one note
with no differing velocity and no differing duration becomes one chord
trigger; otherwise each note gets its own trigger. -/
def eventsForGroup (isPoly : Bool) (adjusted : ℚ) (ns : List MidiNote) :
    List Trigger :=
  match ns with
  | [] => []
  | n0 :: rest =>
    let hasDifferentVelocities :=
      decide (rest ≠ []) && (n0 :: rest).any (fun n => n.velocity ≠ n0.velocity)
    let hasDifferentDurations :=
      decide (rest ≠ []) && (n0 :: rest).any (fun n => n.durationTick ≠ n0.durationTick)
    if isPoly ∧ rest ≠ [] ∧ hasDifferentVelocities = false ∧
        hasDifferentDurations = false then
      [Trigger.chord adjusted (n0 :: rest)]
    else
      (n0 :: rest).map (Trigger.single adjusted)

/-- The walk over the sorted start times (usePlayback.ts lines 122–190):
each group's adjusted start is
`max(max(startBars, minStartBars), lastStartBars + 0.00001)`, where
`lastStartBars` starts at `-Infinity` (modelled by `none`). -/
def emitGroups (minStart : ℚ) (isPoly : Bool) :
    List (ℚ × List MidiNote) → Option ℚ → List Trigger
  | [], _ => []
  | (k, ns) :: rest, last =>
    let adjusted :=
      match last with
      | none => max k minStart
      | some l => max (max k minStart) (l + 1/100000)
    eventsForGroup isPoly adjusted ns ++ emitGroups minStart isPoly rest (some adjusted)

/-- The per-group adjusted start positions of the same walk, one entry
per start-time group, in emission order. -/
def adjustedStarts (minStart : ℚ) :
    List (ℚ × List MidiNote) → Option ℚ → List ℚ
  | [], _ => []
  | (k, _) :: rest, last =>
    let adjusted :=
      match last with
      | none => max k minStart
      | some l => max (max k minStart) (l + 1/100000)
    adjusted :: adjustedStarts minStart rest (some adjusted)

/-- The Transport's current position in the scheduler's tempo-scaled bar
unit (usePlayback.ts lines 109–114): `(seconds/60)*(bpm/4)` when the
transport has advanced, `0` otherwise, divided by `tempo / 240`. -/
def currentTransportBars (tempo transportBpm transportSeconds : ℚ) : ℚ :=
  (if 0 < transportSeconds then transportSeconds / 60 * (transportBpm / 4) else 0)
    / (tempo / 240)

/-- `minStartBars = Math.max(0, currentTransportBars + 0.001)`
(usePlayback.ts lines 118–119). -/
def minStartBars (tempo transportBpm transportSeconds : ℚ) : ℚ :=
  max 0 (currentTransportBars tempo transportBpm transportSeconds + 1/1000)

/-- The full per-track scheduling pass of `scheduleNotes`
(usePlayback.ts lines 77–190): group the track's `(clipStartBars, note)`
pairs by rounded tempo-scaled start, sort the start times ascending, and
walk them emitting triggers at adjusted starts. -/
def scheduleTrack (tempo transportBpm transportSeconds : ℚ) (isPoly : Bool)
    (notes : List (ℚ × MidiNote)) : List Trigger :=
  let groups := buildGroups tempo notes
  let sorted := groups.insertionSort (fun a b => a.1 ≤ b.1)
  emitGroups (minStartBars tempo transportBpm transportSeconds) isPoly sorted none

/-! ## MIDI codec: export (frontend/utils midi export, part_007 lines 20–105)

`exportProjectToMidi` builds an in-memory `@tonejs/midi` `Midi` object:
`header.setTempo(project.tempo)` makes the tempo list the single project
tempo, one time-signature entry is pushed, and one file track is added per
project track that has at least one arrangement clip.  Notes are addressed
by time in seconds via `ticksToSeconds` at the project tempo.  TheControl
Change events (volume/pan/expression, lines 51–71) carry no note data and
are not modelled. -/

/-- A note of the in-memory `@tonejs/midi` object as `addNote` receives it
(part_007 lines 90–95): `midi` number, `time` and `duration` in seconds,
and a `velocity` (the library's contract is a normalized 0–1 float; the
export code passes the project's 0–127 velocity unscaled). -/
structure FileNote where
  midi : ℚ
  time : ℚ
  duration : ℚ
  velocity : ℚ
  deriving DecidableEq, Repr

/-- A track of the in-memory `@tonejs/midi` object. -/
structure FileTrack where
  name : String
  channel : ℚ
  notes : List FileNote
  deriving DecidableEq, Repr

/-- The in-memory `@tonejs/midi` object: tempo events (bpm), time
signature events, and tracks. -/
structure FileModel where
  tempos : List ℚ
  timeSigs : List (ℚ × ℚ)
  tracks : List FileTrack
  deriving DecidableEq, Repr

/-- The `FileNote` the export adds for a project note inside an
arrangement clip at `startBar` (part_007 lines 78–95): absolute tick
`startBar * 1920 + startTick`, converted to seconds at the project
tempo. -/
def fileNoteOf (tempo startBar : ℚ) (n : MidiNote) : FileNote :=
  { midi := n.pitch
    time := ticksToSeconds (startBar * TICKS_PER_BAR + n.startTick) tempo
    duration := ticksToSeconds n.durationTick tempo
    velocity := n.velocity }

/-- The notes one arrangement clip contributes to its track's file track
(part_007 lines 74–99): only `clipType === 'midi'` clips whose
`clipDataId` resolves to a midi clip with at least one note. -/
def exportArrClipNotes (p : Project) (a : ArrangementClip) : List FileNote :=
  if a.clipType = "midi" then
    match p.midiClips.find? (fun c => c.id = a.clipDataId) with
    | some c =>
      if c.notes = [] then []
      else c.notes.map (fun n => fileNoteOf p.tempo a.startBar n)
    | none => []
  else []

/-- The arrangement clips of one track, in project order (part_007 lines
33–39: the `trackClips` map groups `project.arrangementClips` by
`trackId` preserving order). -/
def trackClipsOf (p : Project) (t : Track) : List ArrangementClip :=
  p.arrangementClips.filter (fun a => a.trackId = t.id)

/-- The file track the export creates for one project track, or `none`
when the track has no arrangement clips (part_007 lines 42–48). -/
def exportTrackFile (p : Project) (t : Track) : Option FileTrack :=
  let clips := trackClipsOf p t
  if clips = [] then none
  else some
    { name := t.name
      channel := 0
      notes := (clips.map (exportArrClipNotes p)).flatten }

/-- `exportProjectToMidi` (part_007 lines 20–105): the in-memory `Midi`
object the export builds before serializing it to a blob. -/
def exportProjectToMidi (p : Project) : FileModel :=
  { tempos := [p.tempo]
    timeSigs := [(p.timeSignature.numerator, p.timeSignature.denominator)]
    tracks := p.tracks.filterMap (exportTrackFile p) }

/-- State-passing view of the export: the source reads the project and
builds a new `Midi` object; it calls no project-store mutator, so its
effect on the project state is the identity. -/
def exportProjectToMidiSt (p : Project) : FileModel × Project :=
  (exportProjectToMidi p, p)

/-! ## MIDI wire layer

Modelled from the spec: the byte-level MIDI file format and the
`@tonejs/midi` serializer/parser are outside the repository.  Per spec §6,
a file stores note-on/off pairs with 7-bit note numbers and velocities and
integer tick times at 480 ticks per quarter note; the codec library
addresses notes by time in seconds, so serializing quantizes seconds to
integer ticks at the header tempo and the normalized 0–1 velocity to a
7-bit byte, and parsing maps them back (`velocity` is "recovered as a 0–1
float from the source format", spec §4.3).  Note order within a track is
preserved. -/

/-- Modelled from the spec: one note as stored in the MIDI byte stream —
7-bit note number and velocity byte, integer start/duration ticks. -/
structure WireNote where
  noteNumber : ℤ
  velByte : ℤ
  ticks : ℤ
  durTicks : ℤ
  deriving DecidableEq, Repr

/-- Modelled from the spec: one track chunk of the byte stream. -/
structure WireTrack where
  name : String
  channel : ℚ
  notes : List WireNote
  deriving DecidableEq, Repr

/-- Modelled from the spec: the serialized MIDI file (header tempo and
time-signature meta events plus track chunks). -/
structure WireFile where
  tempos : List ℚ
  timeSigs : List (ℚ × ℚ)
  tracks : List WireTrack
  deriving DecidableEq, Repr

/-- Modelled from the spec: serializing one in-memory note — seconds are
quantized to integer ticks at the header tempo (480 ppq) and the note
number and normalized velocity become 7-bit bytes. -/
def encodeFileNote (tempo : ℚ) (fn : FileNote) : WireNote :=
  { noteNumber := clamp7 (jround fn.midi)
    velByte := clamp7 (jround (fn.velocity * 127))
    ticks := jround (secondsToTicksRaw fn.time tempo)
    durTicks := jround (secondsToTicksRaw fn.duration tempo) }

/-- Modelled from the spec: serializing the in-memory `Midi` object to
bytes (`midi.toArray()`), at the header tempo (first tempo event,
default 120). -/
def toWire (f : FileModel) : WireFile :=
  let tempo := jsOr ((f.tempos.head?).getD 0) 120
  { tempos := f.tempos
    timeSigs := f.timeSigs
    tracks := f.tracks.map (fun t =>
      { name := t.name, channel := t.channel
        notes := t.notes.map (encodeFileNote tempo) }) }

/-- Modelled from the spec: parsing one wire note back into the
`@tonejs/midi` in-memory form — ticks back to seconds at the header
tempo, velocity byte back to a 0–1 float. -/
def decodeWireNote (tempo : ℚ) (w : WireNote) : FileNote :=
  { midi := (w.noteNumber : ℚ)
    time := ticksToSeconds (w.ticks : ℚ) tempo
    duration := ticksToSeconds (w.durTicks : ℚ) tempo
    velocity := (w.velByte : ℚ) / 127 }

/-- Modelled from the spec: parsing a MIDI byte stream (`new
Midi(arrayBuffer)`) back into the in-memory form. -/
def parseWire (w : WireFile) : FileModel :=
  let tempo := jsOr ((w.tempos.head?).getD 0) 120
  { tempos := w.tempos
    timeSigs := w.timeSigs
    tracks := w.tracks.map (fun t =>
      { name := t.name, channel := t.channel
        notes := t.notes.map (decodeWireNote tempo) }) }

/-- An `ArrayBuffer` handed to the import: whether its first four bytes
are the MIDI magic header `4D 54 68 64`, and the parse result (`none`
models a `new Midi(arrayBuffer)` constructor throw). -/
structure ArrayBufferModel where
  hasMagicHeader : Bool
  parsed : Option FileModel
  deriving DecidableEq, Repr

/-- Modelled from the spec: the buffer produced by downloading the export
blob — it starts with the magic header and parses back to the serialized
file. -/
def exportedBuffer (p : Project) : ArrayBufferModel :=
  { hasMagicHeader := true
    parsed := some (parseWire (toWire (exportProjectToMidi p))) }

/-! ## MIDI codec: import (part_007 lines 176–310) -/

/-- The track/clip pair the import creates per source track with notes
(part_007 lines 233–309).  The generated ids and random color carry an
entropy source (`Date.now()`, `Math.random()`) and no claim inspects
them, so they are not modelled.  `clipLengthBars` and `arrLengthBars` are
the `lengthBars` passed to `addMidiClip` and `addArrangementClip`. -/
structure ImportedTrack where
  notes : List MidiNote
  startBar : ℚ
  clipLengthBars : ℤ
  arrLengthBars : ℤ
  deriving DecidableEq, Repr

/-- The mutator calls a successful import performs: `setTempo`,
`setTimeSignature`, and one `addTrack`/`addMidiClip`/`addArrangementClip`
triple per imported track. -/
structure ImportResult where
  tempoSet : Option ℚ
  timeSigSet : Option (ℚ × ℚ)
  clips : List ImportedTrack
  deriving DecidableEq, Repr

/-- The import's local tempo: `midi.header.tempos[0]?.bpm || 120`
(part_007 line 230). -/
def importTempo (midi : FileModel) : ℚ := jsOr ((midi.tempos.head?).getD 0) 120

/-- The import's recovered ticks-per-bar (part_007 lines 225–228):
`(numerator * 480 * 4) / denominator` with `|| 4` defaults. -/
def importTicksPerBar (midi : FileModel) : ℚ :=
  let numerator := jsOr (((midi.timeSigs.head?).map Prod.fst).getD 0) 4
  let denominator := jsOr (((midi.timeSigs.head?).map Prod.snd).getD 0) 4
  numerator * TICKS_PER_QUARTER_NOTE * 4 / denominator

/-- One parsed note mapped into the project domain (part_007 lines
240–250): seconds back to ticks by the inverse formula, velocity scaled
by 100, channel forced to 0.  No clamping is applied. -/
def importNoteRaw (tempo : ℚ) (n : FileNote) : MidiNote :=
  { pitch := n.midi
    startTick := (jround (secondsToTicksRaw n.time tempo) : ℚ)
    durationTick := (jround (secondsToTicksRaw n.duration tempo) : ℚ)
    velocity := n.velocity * 100
    channel := 0 }

/-- The clip data built for one source track with notes (part_007 lines
240–308): map the notes, shift them so the earliest starts at tick 0, and
set both clip lengths to `Math.max(1, Math.ceil(span / ticksPerBar))`. -/
def importTrack (tempo ticksPerBar : ℚ) (tr : FileTrack) : ImportedTrack :=
  let notes := tr.notes.map (importNoteRaw tempo)
  let earliestTick := minListQ (notes.map MidiNote.startTick)
  let latestTick := maxListQ (notes.map (fun n => n.startTick + n.durationTick))
  let normalizedNotes := notes.map (fun n => { n with startTick := n.startTick - earliestTick })
  let clipLengthBars := ⌈(latestTick - earliestTick) / ticksPerBar⌉
  { notes := normalizedNotes
    startBar := 0
    clipLengthBars := max 1 clipLengthBars
    arrLengthBars := max 1 clipLengthBars }

/-- The mutator calls of a successful import (part_007 lines 213–309):
`setTempo` iff a tempo event exists, `setTimeSignature` iff a
time-signature event exists (both with the raw first event), then one
track/clip triple per source track with at least one note. -/
def importOk (midi : FileModel) : ImportResult :=
  { tempoSet := midi.tempos.head?
    timeSigSet := midi.timeSigs.head?
    clips := midi.tracks.filterMap (fun tr =>
      if tr.notes = [] then none
      else some (importTrack (importTempo midi) (importTicksPerBar midi) tr)) }

/-- `importMidiFromArrayBuffer` (part_007 lines 190–310).  The source
throws before calling any mutator: the magic-header check, the parse, and
the tracks-with-notes check (lines 197–211) all precede `setTempo` (line
214) and the per-track additions, so an error result carries no mutator
calls. -/
def importMidiFromArrayBuffer (buf : ArrayBufferModel) : Except String ImportResult :=
  if buf.hasMagicHeader = false then
    .error "Invalid MIDI data. The server may have returned an error or non-MIDI content."
  else
    match buf.parsed with
    | none => .error "Failed to parse MIDI file. The data may be corrupted or in an unsupported format."
    | some midi =>
      if midi.tracks.filter (fun t => t.notes ≠ []) = [] then
        .error "MIDI file has no tracks with notes. Nothing to import."
      else .ok (importOk midi)

/-- Applying an import result's mutator calls to a project: `setTempo` and
`setTimeSignature` overwrite the project fields; each imported track
appends a track, a midi clip and an arrangement clip (id, name, color and
instrument fields are entropy-dependent in the source and filled with
fixed placeholders here; no claim inspects them). -/
def applyImportResult (p : Project) (r : ImportResult) : Project :=
  { tempo := r.tempoSet.getD p.tempo
    timeSignature :=
      match r.timeSigSet with
      | some (n, d) => { numerator := n, denominator := d }
      | none => p.timeSignature
    tracks := p.tracks ++ r.clips.map (fun _ =>
      { id := "", name := "", instrument := some "", volume := 1/2, pan := 0, mute := false })
    midiClips := p.midiClips ++ r.clips.map (fun c =>
      { id := "", trackId := "", startBar := 0, lengthBars := (c.clipLengthBars : ℚ)
        notes := c.notes })
    arrangementClips := p.arrangementClips ++ r.clips.map (fun c =>
      { id := "", trackId := "", startBar := 0, lengthBars := (c.arrLengthBars : ℚ)
        clipType := "midi", clipDataId := "" }) }

/-- Running the import against a project: the thrown error leaves the
project untouched; a successful run applies the mutator calls. -/
def runImport (p : Project) (buf : ArrayBufferModel) : Project × Option String :=
  match importMidiFromArrayBuffer buf with
  | .error m => (p, some m)
  | .ok r => (applyImportResult p r, none)

/-! ## Boundary validation (backend agent, piano-roll UI) -/

/-- The agent boundary's pitch normalization
(backend/src/agent/llm.ts line 157):
`Math.min(127, Math.max(0, Number(note.pitch) || 60))`. -/
def normalizePitch (x : ℚ) : ℚ := min 127 (max 0 (jsOr x 60))

/-- The agent boundary's velocity normalization
(backend/src/agent/llm.ts line 160):
`Math.min(127, Math.max(0, Number(note.velocity) || 100))`. -/
def normalizeVelocity (x : ℚ) : ℚ := min 127 (max 0 (jsOr x 100))

/-- The agent boundary's whole-note normalization
(backend/src/agent/llm.ts lines 154–163). -/
def normalizeAgentNote (n : MidiNote) : MidiNote :=
  { pitch := normalizePitch n.pitch
    startTick := max 0 (jsOr n.startTick 0)
    durationTick := max 1 (jsOr n.durationTick 480)
    velocity := normalizeVelocity n.velocity
    channel := jsOr n.channel 0 }

/-- The piano-roll velocity editor's stored value
(frontend/components/PianoRollView.tsx line 689):
`Math.max(0, Math.min(127, newVelocity))`. -/
def uiVelocityUpdate (newVelocity : ℚ) : ℚ := max 0 (min 127 newVelocity)

/-! ## Statement-side descriptions for the round-trip claims -/

/-- The timeline-placed notes of one track: for each of the track's
arrangement clips (in project order), the referenced midi clip's notes
paired with the clip's absolute start bar. -/
def placedNotesOfTrack (p : Project) (t : Track) : List (ℚ × MidiNote) :=
  ((trackClipsOf p t).map (fun a =>
    if a.clipType = "midi" then
      match p.midiClips.find? (fun c => c.id = a.clipDataId) with
      | some c => c.notes.map (fun n => (a.startBar, n))
      | none => []
    else [])).flatten

/-- All timeline-placed notes of the project, track by track. -/
def placedNotes (p : Project) : List (ℚ × MidiNote) :=
  (p.tracks.map (placedNotesOfTrack p)).flatten

/-- The absolute tick of a placed note. -/
def absTickQ (x : ℚ × MidiNote) : ℚ := x.1 * TICKS_PER_BAR + x.2.startTick

/-- One track's placed absolute ticks shifted down by the track's
earliest absolute tick. -/
def normalizedAbsTicks (p : Project) (t : Track) : List ℚ :=
  let l := (placedNotesOfTrack p t).map absTickQ
  l.map (fun q => q - minListQ l)

/-- The image of a placed note after one export/import round trip, before
the per-track normalization shift: pitch and duration survive, the start
tick becomes the absolute tick, and the velocity collapses to 0 or 100
(the export writes the 0–127 velocity into the codec's normalized 0–1
velocity field and the import rescales the clamped result by 100). -/
def noteImage (x : ℚ × MidiNote) : MidiNote :=
  { pitch := x.2.pitch
    startTick := absTickQ x
    durationTick := x.2.durationTick
    velocity := if x.2.velocity = 0 then 0 else 100
    channel := 0 }

/-- The clip the import creates for one project track after a round trip:
the placed notes' images shifted down by the track's earliest absolute
tick, with the clip lengths the import computes. -/
def importedClipFor (p : Project) (ticksPerBar : ℚ) (t : Track) : ImportedTrack :=
  { notes := (placedNotesOfTrack p t).map (fun x =>
      { pitch := x.2.pitch
        startTick := absTickQ x - minListQ ((placedNotesOfTrack p t).map absTickQ)
        durationTick := x.2.durationTick
        velocity := if x.2.velocity = 0 then (0 : ℚ) else 100
        channel := 0 })
    startBar := 0
    clipLengthBars := max 1 ⌈(maxListQ ((placedNotesOfTrack p t).map
        (fun x => absTickQ x + x.2.durationTick))
      - minListQ ((placedNotesOfTrack p t).map absTickQ)) / ticksPerBar⌉
    arrLengthBars := max 1 ⌈(maxListQ ((placedNotesOfTrack p t).map
        (fun x => absTickQ x + x.2.durationTick))
      - minListQ ((placedNotesOfTrack p t).map absTickQ)) / ticksPerBar⌉ }

/-- The track-level composition of the round-trip pipeline: export the
track to a file track, serialize and re-parse its notes, and run the
import's per-track conversion on the result (dropping empty tracks the
way the import does). -/
def roundTripTrack (p : Project) (ticksPerBar : ℚ) (t : Track) : Option ImportedTrack :=
  (exportTrackFile p t).bind (fun ft =>
    if ft.notes.map (fun fn => decodeWireNote p.tempo (encodeFileNote p.tempo fn)) = []
    then none
    else some (importTrack p.tempo ticksPerBar
      ⟨ft.name, ft.channel,
        ft.notes.map (fun fn => decodeWireNote p.tempo (encodeFileNote p.tempo fn))⟩))

/-- A rational that is a natural number (the data model's integer fields
hold nonnegative integers stored in a `number`). -/
def isNatLike (q : ℚ) : Prop := q.den = 1 ∧ 0 ≤ q

instance : DecidablePred isNatLike := fun q => by unfold isNatLike; infer_instance

/-- A note with valid data-model fields: integer pitch and velocity in
`[0,127]`, nonnegative integer ticks. -/
def validNoteData (n : MidiNote) : Prop :=
  isNatLike n.pitch ∧ n.pitch ≤ 127 ∧ isNatLike n.velocity ∧ n.velocity ≤ 127 ∧
    isNatLike n.startTick ∧ isNatLike n.durationTick

instance : DecidablePred validNoteData := fun n => by unfold validNoteData; infer_instance

/-- Whether an arrangement clip's track id resolves to a project track. -/
def trackExistsFor (p : Project) (a : ArrangementClip) : Bool :=
  p.tracks.any (fun t => t.id = a.trackId)

/-- Whether an arrangement clip's `clipDataId` resolves to a midi clip
with at least one note. -/
def clipResolves (p : Project) (a : ArrangementClip) : Bool :=
  match p.midiClips.find? (fun c => c.id = a.clipDataId) with
  | some c => decide (c.notes ≠ [])
  | none => false

/-- The spec's concrete export/import scenario: a 4/4 project at tempo
120 with one note `startTick=0, durationTick=480, pitch=60, velocity=100`
in an arrangement clip at `startBar=2`. -/
def sampleProjectC8 : Project :=
  { tempo := 120
    timeSignature := { numerator := 4, denominator := 4 }
    tracks := [{ id := "t1", name := "T1", instrument := some "piano",
                 volume := 1, pan := 0, mute := false }]
    midiClips := [{ id := "mc1", trackId := "t1", startBar := 0, lengthBars := 1,
                    notes := [{ pitch := 60, startTick := 0, durationTick := 480,
                                velocity := 100, channel := 0 }] }]
    arrangementClips := [{ id := "ac1", trackId := "t1", startBar := 2, lengthBars := 1,
                           clipType := "midi", clipDataId := "mc1" }] }

/-- A one-note project exercising the export/import round trip: tempo 120,
4/4, one clip at `startBar=0` holding one note `pitch=60, startTick=480,
durationTick=480, velocity=60`. -/
def sampleProjectC1 : Project :=
  { tempo := 120
    timeSignature := { numerator := 4, denominator := 4 }
    tracks := [{ id := "t1", name := "T1", instrument := some "piano",
                 volume := 1, pan := 0, mute := false }]
    midiClips := [{ id := "mc1", trackId := "t1", startBar := 0, lengthBars := 1,
                    notes := [{ pitch := 60, startTick := 480, durationTick := 480,
                                velocity := 60, channel := 0 }] }]
    arrangementClips := [{ id := "ac1", trackId := "t1", startBar := 0, lengthBars := 1,
                           clipType := "midi", clipDataId := "mc1" }] }

/-! ## Theorems: time base converter -/

theorem ticksToSeconds_leftInverse (ticks tempo : ℚ) (h : tempo ≠ 0) :
    secondsToTicksRaw (ticksToSeconds ticks tempo) tempo = ticks := by
  unfold secondsToTicksRaw ticksToSeconds TICKS_PER_QUARTER_NOTE
  field_simp
  ring

theorem jround_intCast (z : ℤ) : jround (z : ℚ) = z := by
  unfold jround
  rw [Int.floor_int_add]
  norm_num

theorem tick_roundTrip (tempo : ℚ) (h : tempo ≠ 0) (z : ℤ) :
    jround (secondsToTicksRaw (ticksToSeconds (z : ℚ) tempo) tempo) = z := by
  rw [ticksToSeconds_leftInverse _ _ h, jround_intCast]

/-- C7: for tempo > 0 and any tick count, converting ticks to seconds and
back with `Math.round((seconds * tempo / 60) * 480)` recovers the
original tick value within one tick (in the exact rational model the
recovery is exact). -/
theorem tickSecond_roundTrip_withinOne (ticks : ℕ) (tempo : ℚ) (h : 0 < tempo) :
    (jround (secondsToTicksRaw (ticksToSeconds (ticks : ℚ) tempo) tempo) - (ticks : ℤ)).natAbs ≤ 1 := by
  have h1 := tick_roundTrip tempo (ne_of_gt h) (ticks : ℤ)
  rw [Int.cast_natCast] at h1
  rw [h1]
  simp

/-- Witness for C7 at `ticks = 3`, `tempo = 120`. -/
theorem tickSecond_roundTrip_withinOne_witness :
    (jround (secondsToTicksRaw (ticksToSeconds ((3 : ℕ) : ℚ) 120) 120) - ((3 : ℕ) : ℤ)).natAbs ≤ 1 :=
  tickSecond_roundTrip_withinOne 3 120 (by norm_num)

/-! ## Theorems: event scheduler -/

theorem eventsForGroup_startBars (p : Bool) (a : ℚ) (ns : List MidiNote) :
    ∀ t ∈ eventsForGroup p a ns, t.startBars = a := by
  intro t ht
  cases ns with
  | nil => simp [eventsForGroup] at ht
  | cons n0 rest =>
    simp only [eventsForGroup] at ht
    split at ht
    · simp only [List.mem_singleton] at ht
      subst ht
      rfl
    · simp only [List.mem_map] at ht
      obtain ⟨n, _, rfl⟩ := ht
      rfl

theorem sum_map_one {α : Type} (l : List α) : (l.map (fun _ => (1 : ℕ))).sum = l.length := by
  induction l with
  | nil => rfl
  | cons x xs ih => simp [ih]; omega

theorem eventsForGroup_noteCount (p : Bool) (a : ℚ) (ns : List MidiNote) :
    ((eventsForGroup p a ns).map Trigger.noteCount).sum = ns.length := by
  cases ns with
  | nil => rfl
  | cons n0 rest =>
    simp only [eventsForGroup]
    split
    · simp [Trigger.noteCount]
    · rw [List.map_map]
      have : (Trigger.noteCount ∘ Trigger.single a) = fun _ => (1 : ℕ) := rfl
      rw [this, sum_map_one]

theorem emitGroups_mem_ge_min (m : ℚ) (p : Bool) :
    ∀ (l : List (ℚ × List MidiNote)) (last : Option ℚ) (t : Trigger),
      t ∈ emitGroups m p l last → m ≤ t.startBars := by
  intro l
  induction l with
  | nil => intro last t ht; simp [emitGroups] at ht
  | cons g rest ih =>
    intro last t ht
    obtain ⟨k, ns⟩ := g
    cases last with
    | none =>
      simp only [emitGroups, List.mem_append] at ht
      rcases ht with ht | ht
      · rw [eventsForGroup_startBars p _ ns t ht]
        exact le_max_right k m
      · exact ih _ t ht
    | some l0 =>
      simp only [emitGroups, List.mem_append] at ht
      rcases ht with ht | ht
      · rw [eventsForGroup_startBars p _ ns t ht]
        exact le_trans (le_max_right k m) (le_max_left _ _)
      · exact ih _ t ht

theorem emitGroups_mem_gt_last (m : ℚ) (p : Bool) :
    ∀ (l : List (ℚ × List MidiNote)) (l0 : ℚ) (t : Trigger),
      t ∈ emitGroups m p l (some l0) → l0 < t.startBars := by
  intro l
  induction l with
  | nil => intro l0 t ht; simp [emitGroups] at ht
  | cons g rest ih =>
    intro l0 t ht
    obtain ⟨k, ns⟩ := g
    simp only [emitGroups, List.mem_append] at ht
    have hgt : l0 < max (max k m) (l0 + 1/100000) :=
      lt_of_lt_of_le (by linarith) (le_max_right _ _)
    rcases ht with ht | ht
    · rw [eventsForGroup_startBars p _ ns t ht]
      exact hgt
    · exact lt_trans hgt (ih _ t ht)

theorem chain'_le_of_all_eq (a : ℚ) :
    ∀ (l : List ℚ), (∀ x ∈ l, x = a) → List.Chain' (· ≤ ·) l := by
  intro l
  induction l with
  | nil => intro _; simp
  | cons x xs ih =>
    intro h
    rw [List.chain'_cons']
    refine ⟨fun y hy => ?_, ih (fun z hz => h z (by simp [hz]))⟩
    rw [h x (by simp), h y (by simp [List.mem_of_mem_head? hy])]

theorem chain'_le_emitGroups (m : ℚ) (p : Bool) :
    ∀ (l : List (ℚ × List MidiNote)) (last : Option ℚ),
      List.Chain' (· ≤ ·) ((emitGroups m p l last).map Trigger.startBars) := by
  intro l
  induction l with
  | nil => intro last; simp [emitGroups]
  | cons g rest ih =>
    intro last
    obtain ⟨k, ns⟩ := g
    have key : ∀ adjusted : ℚ,
        List.Chain' (· ≤ ·)
          ((eventsForGroup p adjusted ns ++ emitGroups m p rest (some adjusted)).map
            Trigger.startBars) := by
      intro adjusted
      rw [List.map_append]
      refine List.Chain'.append ?_ (ih (some adjusted)) ?_
      · refine chain'_le_of_all_eq adjusted _ (fun x hx => ?_)
        obtain ⟨t, ht, rfl⟩ := List.mem_map.mp hx
        exact eventsForGroup_startBars p adjusted ns t ht
      · intro x hx y hy
        have hxmem := List.mem_of_mem_getLast? hx
        obtain ⟨t, ht, rfl⟩ := List.mem_map.mp hxmem
        rw [eventsForGroup_startBars p adjusted ns t ht]
        have hymem := List.mem_of_mem_head? hy
        obtain ⟨u, hu, rfl⟩ := List.mem_map.mp hymem
        exact le_of_lt (emitGroups_mem_gt_last m p rest adjusted u hu)
    cases last with
    | none => exact key _
    | some l0 => exact key _

theorem mem_adjustedStarts_gt_last (m : ℚ) :
    ∀ (l : List (ℚ × List MidiNote)) (l0 x : ℚ),
      x ∈ adjustedStarts m l (some l0) → l0 < x := by
  intro l
  induction l with
  | nil => intro l0 x hx; simp [adjustedStarts] at hx
  | cons g rest ih =>
    intro l0 x hx
    obtain ⟨k, ns⟩ := g
    simp only [adjustedStarts, List.mem_cons] at hx
    have hgt : l0 < max (max k m) (l0 + 1/100000) :=
      lt_of_lt_of_le (by linarith) (le_max_right _ _)
    rcases hx with rfl | hx
    · exact hgt
    · exact lt_trans hgt (ih _ x hx)

theorem chain'_lt_adjustedStarts (m : ℚ) :
    ∀ (l : List (ℚ × List MidiNote)) (last : Option ℚ),
      List.Chain' (· < ·) (adjustedStarts m l last) := by
  intro l
  induction l with
  | nil => intro last; simp [adjustedStarts]
  | cons g rest ih =>
    intro last
    obtain ⟨k, ns⟩ := g
    have key : ∀ adjusted : ℚ,
        List.Chain' (· < ·) (adjusted :: adjustedStarts m rest (some adjusted)) := by
      intro adjusted
      rw [List.chain'_cons']
      refine ⟨fun y hy => ?_, ih (some adjusted)⟩
      exact mem_adjustedStarts_gt_last m rest adjusted y (List.mem_of_mem_head? hy)
    cases last with
    | none => exact key _
    | some l0 => exact key _

/-- C2 (amended): within one `scheduleNotes` pass for a track, the
per-group adjusted start positions form a strictly increasing sequence
(each is at least the previous plus `0.00001`), and the emitted triggers'
start positions are non-decreasing; but a rounded-start group whose notes
are emitted individually yields several triggers sharing that group's
single adjusted start, so distinct emitted triggers can share a start
time. -/
theorem scheduleTrack_ordering (tempo transportBpm transportSeconds : ℚ)
    (isPoly : Bool) (notes : List (ℚ × MidiNote)) :
    List.Chain' (· < ·)
      (adjustedStarts (minStartBars tempo transportBpm transportSeconds)
        ((buildGroups tempo notes).insertionSort (fun a b => a.1 ≤ b.1)) none) ∧
    List.Chain' (· ≤ ·)
      ((scheduleTrack tempo transportBpm transportSeconds isPoly notes).map
        Trigger.startBars) :=
  ⟨chain'_lt_adjustedStarts _ _ _, chain'_le_emitGroups _ _ _ _⟩

/-- C2 counterexample: two notes at the same rounded start with different
velocities are scheduled as two individual triggers sharing the same
adjusted start position, so the emitted start positions are not strictly
increasing and two triggers of one track share a start time. -/
theorem scheduleTrack_sharedStart_counterexample :
    ((scheduleTrack 240 120 0 false
        [(0, ⟨60, 0, 480, 90, 0⟩), (0, ⟨64, 0, 480, 110, 0⟩)]).map Trigger.startBars)
      = [1/1000, 1/1000] ∧
    ¬ List.Chain' (· < ·)
      ((scheduleTrack 240 120 0 false
        [(0, ⟨60, 0, 480, 90, 0⟩), (0, ⟨64, 0, 480, 110, 0⟩)]).map Trigger.startBars) ∧
    ¬ List.Pairwise (· ≠ ·)
      ((scheduleTrack 240 120 0 false
        [(0, ⟨60, 0, 480, 90, 0⟩), (0, ⟨64, 0, 480, 110, 0⟩)]).map Trigger.startBars) := by
  have h : ((scheduleTrack 240 120 0 false
      [(0, ⟨60, 0, 480, 90, 0⟩), (0, ⟨64, 0, 480, 110, 0⟩)]).map Trigger.startBars)
        = [1/1000, 1/1000] := by
    norm_num [scheduleTrack, buildGroups, addToGroups, scaledStart, round4, ticksToBars,
      TICKS_PER_BAR, jround, List.insertionSort, List.orderedInsert, minStartBars,
      currentTransportBars, emitGroups, eventsForGroup, Trigger.startBars]
  refine ⟨h, ?_, ?_⟩ <;> rw [h] <;> simp

theorem emitGroups_noteCount (m : ℚ) (p : Bool) :
    ∀ (l : List (ℚ × List MidiNote)) (last : Option ℚ),
      ((emitGroups m p l last).map Trigger.noteCount).sum
        = (l.map (fun g => g.2.length)).sum := by
  intro l
  induction l with
  | nil => intro last; simp [emitGroups]
  | cons g rest ih =>
    intro last
    obtain ⟨k, ns⟩ := g
    cases last with
    | none =>
      simp only [emitGroups, List.map_append, List.sum_append, List.map_cons, List.sum_cons]
      rw [eventsForGroup_noteCount, ih]
    | some l0 =>
      simp only [emitGroups, List.map_append, List.sum_append, List.map_cons, List.sum_cons]
      rw [eventsForGroup_noteCount, ih]

theorem addToGroups_size (k : ℚ) (n : MidiNote) :
    ∀ (gs : List (ℚ × List MidiNote)),
      ((addToGroups gs k n).map (fun g => g.2.length)).sum
        = ((gs.map (fun g => g.2.length)).sum) + 1 := by
  intro gs
  induction gs with
  | nil => rfl
  | cons g rest ih =>
    obtain ⟨k', ns⟩ := g
    by_cases h : k' = k
    · simp [addToGroups, h]
      omega
    · simp [addToGroups, h, ih]
      omega

theorem buildGroups_size_aux (tempo : ℚ) :
    ∀ (notes : List (ℚ × MidiNote)) (gs : List (ℚ × List MidiNote)),
      ((notes.foldl (fun gs cn => addToGroups gs (scaledStart tempo cn.1 cn.2) cn.2) gs).map
        (fun g => g.2.length)).sum = (gs.map (fun g => g.2.length)).sum + notes.length := by
  intro notes
  induction notes with
  | nil => intro gs; simp
  | cons cn rest ih =>
    intro gs
    simp only [List.foldl_cons, List.length_cons]
    rw [ih, addToGroups_size]
    omega

/-- C3: every trigger emitted by the per-track scheduling pass starts at
or after the Transport's current position in the same tempo-scaled bar
unit (the safety margin even makes this strict), and no note is dropped:
the emitted triggers play exactly as many notes as were collected. -/
theorem scheduleTrack_noPast_noDrop (tempo transportBpm transportSeconds : ℚ)
    (isPoly : Bool) (notes : List (ℚ × MidiNote)) :
    (∀ t ∈ scheduleTrack tempo transportBpm transportSeconds isPoly notes,
        currentTransportBars tempo transportBpm transportSeconds ≤ t.startBars) ∧
    ((scheduleTrack tempo transportBpm transportSeconds isPoly notes).map
        Trigger.noteCount).sum = notes.length := by
  constructor
  · intro t ht
    have h1 : minStartBars tempo transportBpm transportSeconds ≤ t.startBars :=
      emitGroups_mem_ge_min _ _ _ _ t ht
    have h2 : currentTransportBars tempo transportBpm transportSeconds + 1/1000
        ≤ minStartBars tempo transportBpm transportSeconds := le_max_right _ _
    linarith
  · show ((emitGroups _ _ _ _).map Trigger.noteCount).sum = _
    rw [emitGroups_noteCount]
    have hperm : ((buildGroups tempo notes).insertionSort (fun a b => a.1 ≤ b.1)).Perm
        (buildGroups tempo notes) := List.perm_insertionSort _ _
    rw [(hperm.map (fun g => g.2.length)).sum_eq]
    unfold buildGroups
    rw [buildGroups_size_aux]
    simp

/-- C6: for a simultaneous group of at least two notes, the scheduler
emits one chord trigger for the whole group when the instrument is a
PolySynth and all notes share one velocity and one duration, and one
individual trigger per note whenever two notes of the group differ in
velocity. -/
theorem group_chord_vs_individual (isPoly : Bool) (adjusted : ℚ)
    (ns : List MidiNote) (h2 : 2 ≤ ns.length) :
    ((isPoly = true ∧
        (∀ a ∈ ns, ∀ b ∈ ns, a.velocity = b.velocity ∧ a.durationTick = b.durationTick)) →
      eventsForGroup isPoly adjusted ns = [Trigger.chord adjusted ns]) ∧
    ((∃ a ∈ ns, ∃ b ∈ ns, a.velocity ≠ b.velocity) →
      eventsForGroup isPoly adjusted ns = ns.map (Trigger.single adjusted)) := by
  match ns, h2 with
  | n0 :: n1 :: rest, _ =>
    constructor
    · rintro ⟨rfl, hall⟩
      have hvel : ∀ n ∈ n0 :: n1 :: rest, n.velocity = n0.velocity := fun n hn =>
        (hall n hn n0 (by simp)).1
      have hdur : ∀ n ∈ n0 :: n1 :: rest, n.durationTick = n0.durationTick := fun n hn =>
        (hall n hn n0 (by simp)).2
      simp only [eventsForGroup]
      rw [if_pos]
      refine ⟨by trivial, by simp, ?_, ?_⟩
      · simp only [Bool.and_eq_false_iff, List.any_eq_false]
        right
        intro n hn
        simp [hvel n hn]
      · simp only [Bool.and_eq_false_iff, List.any_eq_false]
        right
        intro n hn
        simp [hdur n hn]
    · rintro ⟨a, ha, b, hb, hab⟩
      have hdv : ((n0 :: n1 :: rest).any fun n => n.velocity ≠ n0.velocity) = true := by
        rw [List.any_eq_true]
        by_cases h : a.velocity = n0.velocity
        · have hbn : b.velocity ≠ n0.velocity := fun hEq => hab (h.trans hEq.symm)
          exact ⟨b, hb, by simp [hbn]⟩
        · exact ⟨a, ha, by simp [h]⟩
      simp only [eventsForGroup]
      rw [if_neg]
      rintro ⟨-, -, hfalse, -⟩
      rw [Bool.and_eq_false_iff] at hfalse
      rcases hfalse with h | h
      · simp at h
      · rw [hdv] at h
        simp at h

/-- Witness for C6: two notes of velocity 90 and duration 480 on a
PolySynth become one chord trigger; notes of velocities 90 and 110 become
two individual triggers. -/
theorem group_chord_vs_individual_witness :
    eventsForGroup true (1/2) [⟨60, 0, 480, 90, 0⟩, ⟨64, 0, 480, 90, 0⟩]
      = [Trigger.chord (1/2) [⟨60, 0, 480, 90, 0⟩, ⟨64, 0, 480, 90, 0⟩]] ∧
    eventsForGroup true (1/2) [⟨60, 0, 480, 90, 0⟩, ⟨64, 0, 480, 110, 0⟩]
      = [Trigger.single (1/2) ⟨60, 0, 480, 90, 0⟩, Trigger.single (1/2) ⟨64, 0, 480, 110, 0⟩] :=
  ⟨(group_chord_vs_individual true (1/2) _ (by simp)).1
      ⟨rfl, by intro a ha b hb; fin_cases ha <;> fin_cases hb <;> simp⟩,
   (group_chord_vs_individual true (1/2) _ (by simp)).2
      ⟨⟨60, 0, 480, 90, 0⟩, List.mem_cons_self _ _,
       ⟨64, 0, 480, 110, 0⟩, List.mem_cons_of_mem _ (List.mem_cons_self _ _), by norm_num⟩⟩

/-! ## Theorems: MIDI codec -/

/-- C4: the import rejects a buffer without the MIDI magic header, a
buffer that fails to parse, and a parsed file with no note-carrying
track, with an error and no project mutation. -/
theorem importMidi_rejects_without_mutation (p : Project) (buf : ArrayBufferModel)
    (h : buf.hasMagicHeader = false ∨ buf.parsed = none ∨
      (∃ midi, buf.parsed = some midi ∧
        midi.tracks.filter (fun t => t.notes ≠ []) = [])) :
    (∃ msg, importMidiFromArrayBuffer buf = .error msg) ∧ (runImport p buf).1 = p := by
  have herr : ∃ msg, importMidiFromArrayBuffer buf = .error msg := by
    unfold importMidiFromArrayBuffer
    by_cases hm : buf.hasMagicHeader = false
    · rw [if_pos hm]
      exact ⟨_, rfl⟩
    · rw [if_neg hm]
      rcases h with h | h | ⟨midi, hmid, hfil⟩
      · exact absurd h hm
      · rw [h]
        exact ⟨_, rfl⟩
      · rw [hmid]
        simp only [if_pos hfil]
        exact ⟨_, rfl⟩
  obtain ⟨msg, hmsg⟩ := herr
  refine ⟨⟨msg, hmsg⟩, ?_⟩
  unfold runImport
  rw [hmsg]

/-- Witness for C4: a buffer without the magic header is rejected and an
empty project stays unchanged. -/
theorem importMidi_rejects_witness :
    (∃ msg, importMidiFromArrayBuffer ⟨false, none⟩ = .error msg) ∧
    (runImport ⟨120, ⟨4, 4⟩, [], [], []⟩ ⟨false, none⟩).1 = ⟨120, ⟨4, 4⟩, [], [], []⟩ :=
  importMidi_rejects_without_mutation ⟨120, ⟨4, 4⟩, [], [], []⟩ ⟨false, none⟩ (Or.inl rfl)

/-- C5 counterexample: the import boundary applies no clamping — a parsed
note with pitch 200 and normalized velocity 2 (the out-of-format values
the spec's defensive-clamping requirement is about) is stored with pitch
200 and velocity 200, both outside [0,127]. -/
theorem import_no_clamp_counterexample :
    importMidiFromArrayBuffer ⟨true, some ⟨[120], [(4, 4)], [⟨"t", 0, [⟨200, 0, 0, 2⟩]⟩]⟩⟩
      = .ok ⟨some 120, some (4, 4), [⟨[⟨200, 0, 0, 200, 0⟩], 0, 1, 1⟩]⟩ ∧
    ¬ ((200 : ℚ) ≤ 127) := by
  constructor
  · norm_num [importMidiFromArrayBuffer, importOk, importTrack, importNoteRaw, importTempo,
      importTicksPerBar, jsOr, jround, minListQ, maxListQ, secondsToTicksRaw,
      TICKS_PER_QUARTER_NOTE, List.filterMap_cons]
  · norm_num

/-- C5 (amended): pitch/velocity supplied outside [0,127] through the
agent-edit boundary or the piano-roll velocity editor is stored clamped
into [0,127]; the MIDI import boundary stores the parsed pitch and the
100-scaled parsed velocity without clamping. -/
theorem boundary_clamping (x : ℚ) (h : x < 0 ∨ 127 < x) :
    normalizePitch x = min 127 (max 0 x) ∧
    normalizeVelocity x = min 127 (max 0 x) ∧
    uiVelocityUpdate x = min 127 (max 0 x) ∧
    (0 ≤ normalizePitch x ∧ normalizePitch x ≤ 127) ∧
    (0 ≤ normalizeVelocity x ∧ normalizeVelocity x ≤ 127) ∧
    (∀ tempo : ℚ, ∀ n : FileNote, (importNoteRaw tempo n).pitch = n.midi ∧
      (importNoteRaw tempo n).velocity = n.velocity * 100) := by
  have hx0 : x ≠ 0 := by
    rcases h with h | h <;> intro hx <;> rw [hx] at h <;> norm_num at h
  have h1 : normalizePitch x = min 127 (max 0 x) := by
    rw [normalizePitch, jsOr, if_neg hx0]
  have h2 : normalizeVelocity x = min 127 (max 0 x) := by
    rw [normalizeVelocity, jsOr, if_neg hx0]
  have h3 : uiVelocityUpdate x = min 127 (max 0 x) := by
    rw [uiVelocityUpdate]
    rcases le_total x 0 with hx | hx
    · rw [min_eq_right (by linarith : x ≤ (127:ℚ)), max_eq_left hx,
        min_eq_right (by norm_num : (0:ℚ) ≤ 127)]
    · rw [max_eq_right hx]
      rcases le_total x 127 with hx' | hx'
      · rw [min_eq_right hx', max_eq_right hx]
      · rw [min_eq_left hx', max_eq_right (by norm_num : (0:ℚ) ≤ 127)]
  refine ⟨h1, h2, h3, ?_, ?_, fun tempo n => ⟨rfl, rfl⟩⟩
  · rw [h1]
    exact ⟨le_min (by norm_num) (le_max_left 0 x), min_le_left _ _⟩
  · rw [h2]
    exact ⟨le_min (by norm_num) (le_max_left 0 x), min_le_left _ _⟩

/-- Witness for C5 at the out-of-range value 200. -/
theorem boundary_clamping_witness :
    normalizePitch 200 = min 127 (max 0 200) ∧
    normalizeVelocity 200 = min 127 (max 0 200) ∧
    uiVelocityUpdate 200 = min 127 (max 0 200) ∧
    (0 ≤ normalizePitch 200 ∧ normalizePitch 200 ≤ 127) ∧
    (0 ≤ normalizeVelocity 200 ∧ normalizeVelocity 200 ≤ 127) ∧
    (∀ tempo : ℚ, ∀ n : FileNote, (importNoteRaw tempo n).pitch = n.midi ∧
      (importNoteRaw tempo n).velocity = n.velocity * 100) :=
  boundary_clamping 200 (Or.inr (by norm_num))

theorem foldl_min_map_sub (c : ℚ) :
    ∀ (xs : List ℚ) (a : ℚ),
      (xs.map (fun x => x - c)).foldl min (a - c) = xs.foldl min a - c := by
  intro xs
  induction xs with
  | nil => intro a; rfl
  | cons x rest ih =>
    intro a
    simp only [List.map_cons, List.foldl_cons]
    rw [min_sub_sub_right, ih]

theorem minListQ_map_sub (c : ℚ) (l : List ℚ) (h : l ≠ []) :
    minListQ (l.map (fun x => x - c)) = minListQ l - c := by
  cases l with
  | nil => cases h rfl
  | cons x xs =>
    simp only [minListQ, List.map_cons]
    exact foldl_min_map_sub c xs x

/-- C9: for every imported source track with at least one note, the
created clip's notes are the raw converted notes shifted down by their
minimum start tick — so the earliest normalized note starts at tick 0 and
pairwise tick differences are preserved — and both the midi clip and the
arrangement clip get `lengthBars = max 1 ⌈span / ticksPerBar⌉` where the
span is the latest note end minus the earliest note start. -/
theorem importTrack_normalization (tempo ticksPerBar : ℚ) (tr : FileTrack)
    (h : tr.notes ≠ []) :
    minListQ ((importTrack tempo ticksPerBar tr).notes.map MidiNote.startTick) = 0 ∧
    (importTrack tempo ticksPerBar tr).notes.map MidiNote.startTick
      = ((tr.notes.map (importNoteRaw tempo)).map MidiNote.startTick).map
          (fun q => q - minListQ ((tr.notes.map (importNoteRaw tempo)).map MidiNote.startTick)) ∧
    (importTrack tempo ticksPerBar tr).clipLengthBars
      = max 1 ⌈(maxListQ ((tr.notes.map (importNoteRaw tempo)).map
            (fun n => n.startTick + n.durationTick))
          - minListQ ((tr.notes.map (importNoteRaw tempo)).map MidiNote.startTick))
            / ticksPerBar⌉ ∧
    (importTrack tempo ticksPerBar tr).arrLengthBars
      = (importTrack tempo ticksPerBar tr).clipLengthBars := by
  have hmap : (importTrack tempo ticksPerBar tr).notes.map MidiNote.startTick
      = ((tr.notes.map (importNoteRaw tempo)).map MidiNote.startTick).map
          (fun q => q - minListQ ((tr.notes.map (importNoteRaw tempo)).map MidiNote.startTick)) := by
    simp only [importTrack, List.map_map]
    rfl
  have hne : ((tr.notes.map (importNoteRaw tempo)).map MidiNote.startTick) ≠ [] := by
    simp [h]
  refine ⟨?_, hmap, rfl, rfl⟩
  rw [hmap, minListQ_map_sub _ _ hne, sub_self]

/-- Witness for C9: a one-note track (note at 1 s for 2 s at tempo 120)
normalizes to start tick 0 with the stated clip lengths. -/
theorem importTrack_normalization_witness :
    minListQ ((importTrack 120 1920 ⟨"t", 0, [⟨60, 1, 2, 1⟩]⟩).notes.map MidiNote.startTick) = 0 ∧
    (importTrack 120 1920 ⟨"t", 0, [⟨60, 1, 2, 1⟩]⟩).notes.map MidiNote.startTick
      = ((([⟨60, 1, 2, 1⟩] : List FileNote).map (importNoteRaw 120)).map MidiNote.startTick).map
          (fun q => q - minListQ ((([⟨60, 1, 2, 1⟩] : List FileNote).map
            (importNoteRaw 120)).map MidiNote.startTick)) ∧
    (importTrack 120 1920 ⟨"t", 0, [⟨60, 1, 2, 1⟩]⟩).clipLengthBars
      = max 1 ⌈(maxListQ ((([⟨60, 1, 2, 1⟩] : List FileNote).map (importNoteRaw 120)).map
            (fun n => n.startTick + n.durationTick))
          - minListQ ((([⟨60, 1, 2, 1⟩] : List FileNote).map (importNoteRaw 120)).map
            MidiNote.startTick)) / 1920⌉ ∧
    (importTrack 120 1920 ⟨"t", 0, [⟨60, 1, 2, 1⟩]⟩).arrLengthBars
      = (importTrack 120 1920 ⟨"t", 0, [⟨60, 1, 2, 1⟩]⟩).clipLengthBars :=
  importTrack_normalization 120 1920 ⟨"t", 0, [⟨60, 1, 2, 1⟩]⟩ (by simp)

/-- C10: `exportProjectToMidi` never modifies its project argument: in
the state-passing view of the export (which calls no store mutator) the
project and all its fields are unchanged, and the produced file is the
pure function of the project. -/
theorem export_preserves_project (p : Project) :
    (exportProjectToMidiSt p).2 = p ∧
    (exportProjectToMidiSt p).2.tempo = p.tempo ∧
    (exportProjectToMidiSt p).2.timeSignature = p.timeSignature ∧
    (exportProjectToMidiSt p).2.tracks = p.tracks ∧
    (exportProjectToMidiSt p).2.midiClips = p.midiClips ∧
    (exportProjectToMidiSt p).2.arrangementClips = p.arrangementClips ∧
    (exportProjectToMidiSt p).1 = exportProjectToMidi p :=
  ⟨rfl, rfl, rfl, rfl, rfl, rfl, rfl⟩

/-- C8: the spec's concrete scenario — tempo 120, 4/4, one note
`pitch=60, startTick=0, durationTick=480, velocity=100` in a clip at
`startBar=2` — exports at absolute tick 3840 = 4.0 seconds with duration
0.5 seconds, and re-importing the exported file recovers at `startBar=0`
a note with `startTick=0, durationTick=480, pitch=60`. -/
theorem concrete_export_import_scenario :
    (exportProjectToMidi sampleProjectC8).tracks
      = [⟨"T1", 0, [⟨60, 4, 1/2, 100⟩]⟩] ∧
    (toWire (exportProjectToMidi sampleProjectC8)).tracks
      = [⟨"T1", 0, [⟨60, 127, 3840, 480⟩]⟩] ∧
    importMidiFromArrayBuffer (exportedBuffer sampleProjectC8)
      = .ok ⟨some 120, some (4, 4), [⟨[⟨60, 0, 480, 100, 0⟩], 0, 1, 1⟩]⟩ := by
  refine ⟨?_, ?_, ?_⟩
  · norm_num [exportProjectToMidi, exportTrackFile, trackClipsOf, exportArrClipNotes,
      fileNoteOf, ticksToSeconds, sampleProjectC8, TICKS_PER_BAR, TICKS_PER_QUARTER_NOTE,
      List.filterMap_cons, List.filter_cons]
  · norm_num [toWire, encodeFileNote, exportProjectToMidi, exportTrackFile, trackClipsOf,
      exportArrClipNotes, fileNoteOf, ticksToSeconds, sampleProjectC8, jsOr, jround, clamp7,
      secondsToTicksRaw, TICKS_PER_BAR, TICKS_PER_QUARTER_NOTE, List.filterMap_cons,
      List.filter_cons]
  · have hc : (⌈(1:ℚ)/4⌉ : ℤ) = 1 := by
      rw [Int.ceil_eq_iff] ; norm_num
    norm_num [importMidiFromArrayBuffer, exportedBuffer, importOk, importTrack, importNoteRaw,
      importTempo, importTicksPerBar, parseWire, toWire, encodeFileNote, decodeWireNote,
      exportProjectToMidi, exportTrackFile, trackClipsOf, exportArrClipNotes, fileNoteOf,
      ticksToSeconds, sampleProjectC8, jsOr, jround, clamp7, secondsToTicksRaw, minListQ,
      maxListQ, TICKS_PER_BAR, TICKS_PER_QUARTER_NOTE, List.filterMap_cons, List.filter_cons, hc]

/-! ## Theorems: export/import round trip (C1) -/

theorem isNatLike_exists_int (q : ℚ) (h : isNatLike q) : ∃ z : ℤ, 0 ≤ z ∧ (z : ℚ) = q := by
  obtain ⟨hden, hpos⟩ := h
  refine ⟨q.num, ?_, (Rat.den_eq_one_iff q).mp hden⟩
  exact Rat.num_nonneg.mpr hpos

theorem clamp7_of_bounds (z : ℤ) (h0 : 0 ≤ z) (h127 : z ≤ 127) : clamp7 z = z := by
  rw [clamp7, max_eq_right h0, min_eq_right h127]

theorem clamp7_kill (z : ℤ) (h0 : 0 ≤ z) :
    clamp7 (z * 127) = if z = 0 then 0 else 127 := by
  by_cases hz : z = 0
  · subst hz
    rfl
  · have h1 : 1 ≤ z := lt_of_le_of_ne h0 (Ne.symm hz)
    have : (127 : ℤ) ≤ z * 127 := by nlinarith
    rw [clamp7, max_eq_right (by linarith), min_eq_left this, if_neg hz]

theorem roundTripNote (tempo : ℚ) (ht : tempo ≠ 0) (b : ℚ) (n : MidiNote)
    (hb : isNatLike b) (hn : validNoteData n) :
    importNoteRaw tempo (decodeWireNote tempo (encodeFileNote tempo (fileNoteOf tempo b n)))
      = ⟨n.pitch, b * TICKS_PER_BAR + n.startTick, n.durationTick,
          if n.velocity = 0 then 0 else 100, 0⟩ := by
  obtain ⟨hp, hp127, hv, hv127, hs, hd⟩ := hn
  obtain ⟨zb, hzb0, hzb⟩ := isNatLike_exists_int b hb
  obtain ⟨zp, hzp0, hzp⟩ := isNatLike_exists_int n.pitch hp
  obtain ⟨zv, hzv0, hzv⟩ := isNatLike_exists_int n.velocity hv
  obtain ⟨zs, hzs0, hzs⟩ := isNatLike_exists_int n.startTick hs
  obtain ⟨zd, hzd0, hzd⟩ := isNatLike_exists_int n.durationTick hd
  have hzp127 : zp ≤ 127 := by
    have : (zp : ℚ) ≤ ((127 : ℤ) : ℚ) := by rw [hzp]; exact_mod_cast hp127
    exact_mod_cast this
  have habs : b * TICKS_PER_BAR + n.startTick = ((zb * 1920 + zs : ℤ) : ℚ) := by
    rw [← hzb, ← hzs, TICKS_PER_BAR]
    push_cast
    ring
  have hpitch : clamp7 (jround n.pitch) = zp := by
    rw [← hzp, jround_intCast, clamp7_of_bounds _ hzp0 hzp127]
  have hticks : jround (secondsToTicksRaw (ticksToSeconds (b * TICKS_PER_BAR + n.startTick)
      tempo) tempo) = zb * 1920 + zs := by
    rw [habs, tick_roundTrip tempo ht]
  have hdur : jround (secondsToTicksRaw (ticksToSeconds n.durationTick tempo) tempo) = zd := by
    rw [← hzd, tick_roundTrip tempo ht]
  have hvel : clamp7 (jround (n.velocity * 127)) = if zv = 0 then 0 else 127 := by
    rw [← hzv, show ((zv : ℚ) * 127) = ((zv * 127 : ℤ) : ℚ) by push_cast; ring,
      jround_intCast, clamp7_kill zv hzv0]
  have henc : encodeFileNote tempo (fileNoteOf tempo b n)
      = ⟨zp, if zv = 0 then 0 else 127, zb * 1920 + zs, zd⟩ := by
    simp only [encodeFileNote, fileNoteOf, WireNote.mk.injEq]
    exact ⟨hpitch, hvel, hticks, hdur⟩
  rw [henc]
  simp only [importNoteRaw, decodeWireNote, MidiNote.mk.injEq]
  refine ⟨hzp, ?_, ?_, ?_, by trivial⟩
  · rw [tick_roundTrip tempo ht, ← habs]
  · rw [tick_roundTrip tempo ht, hzd]
  · by_cases hz : zv = 0
    · rw [if_pos hz]
      have hv0 : n.velocity = 0 := by rw [← hzv, hz]; norm_num
      rw [if_pos hv0]
      norm_num
    · rw [if_neg hz]
      have hv0 : n.velocity ≠ 0 := by
        rw [← hzv]
        exact_mod_cast hz
      rw [if_neg hv0]
      norm_num

theorem clipResolves_iff (p : Project) (a : ArrangementClip) :
    clipResolves p a = true ↔
      ∃ c, p.midiClips.find? (fun c => c.id = a.clipDataId) = some c ∧ c.notes ≠ [] := by
  unfold clipResolves
  cases hf : p.midiClips.find? (fun c => c.id = a.clipDataId) with
  | none =>
    simp
  | some c =>
    simp [hf]

theorem exportTrackFile_eq (p : Project) (t : Track)
    (hcov : ∀ a ∈ p.arrangementClips, a.clipType = "midi" ∧ clipResolves p a = true)
    (hclips : trackClipsOf p t ≠ []) :
    exportTrackFile p t = some ⟨t.name, 0,
      (placedNotesOfTrack p t).map (fun x => fileNoteOf p.tempo x.1 x.2)⟩ := by
  unfold exportTrackFile
  rw [if_neg hclips]
  have hnotes : ((trackClipsOf p t).map (exportArrClipNotes p)).flatten
      = (placedNotesOfTrack p t).map (fun x => fileNoteOf p.tempo x.1 x.2) := by
    unfold placedNotesOfTrack
    rw [List.map_flatten, List.map_map]
    congr 1
    refine List.map_congr_left (fun a ha => ?_)
    have hmem : a ∈ p.arrangementClips := (List.mem_filter.mp ha).1
    obtain ⟨hmidi, hres⟩ := hcov a hmem
    obtain ⟨c, hfind, hcne⟩ := (clipResolves_iff p a).mp hres
    simp only [Function.comp, exportArrClipNotes, hmidi, hfind, if_neg hcne, List.map_map]
    simp
  rw [hnotes]

theorem mem_placedNotesOfTrack (p : Project) (t : Track) (x : ℚ × MidiNote)
    (hx : x ∈ placedNotesOfTrack p t) :
    (∃ a ∈ p.arrangementClips, x.1 = a.startBar) ∧ ∃ c ∈ p.midiClips, x.2 ∈ c.notes := by
  unfold placedNotesOfTrack at hx
  rw [List.mem_flatten] at hx
  obtain ⟨l, hl, hxl⟩ := hx
  rw [List.mem_map] at hl
  obtain ⟨a, ha, rfl⟩ := hl
  have hmem : a ∈ p.arrangementClips := (List.mem_filter.mp ha).1
  split at hxl
  · rename_i hmidi
    split at hxl
    · rename_i c hfind
      rw [List.mem_map] at hxl
      obtain ⟨n, hn, rfl⟩ := hxl
      exact ⟨⟨a, hmem, rfl⟩, c, List.mem_of_find?_eq_some hfind, hn⟩
    · simp at hxl
  · simp at hxl

theorem placedNotesOfTrack_ne_nil (p : Project) (t : Track)
    (hcov : ∀ a ∈ p.arrangementClips, a.clipType = "midi" ∧ clipResolves p a = true)
    (hclips : trackClipsOf p t ≠ []) : placedNotesOfTrack p t ≠ [] := by
  obtain ⟨a, rest, hcons⟩ : ∃ a rest, trackClipsOf p t = a :: rest := by
    cases h : trackClipsOf p t with
    | nil => exact absurd h hclips
    | cons a rest => exact ⟨a, rest, rfl⟩
  have hmem : a ∈ p.arrangementClips := by
    have : a ∈ trackClipsOf p t := by rw [hcons]; exact List.mem_cons_self a rest
    exact (List.mem_filter.mp this).1
  obtain ⟨hmidi, hres⟩ := hcov a hmem
  obtain ⟨c, hfind, hcne⟩ := (clipResolves_iff p a).mp hres
  unfold placedNotesOfTrack
  rw [hcons]
  simp only [List.map_cons, List.flatten_cons, hmidi, if_pos rfl, hfind]
  intro hcontra
  rcases List.append_eq_nil.mp hcontra with ⟨h1, -⟩
  exact hcne (List.map_eq_nil_iff.mp h1)

theorem flatten_filterMap_eq {α γ β : Type} (F : α → Option γ) (proj : γ → List β)
    (G : α → List β)
    (l : List α)
    (h : ∀ a ∈ l, match F a with
      | none => G a = []
      | some c => proj c = G a) :
    ((l.filterMap F).map proj).flatten = (l.map G).flatten := by
  induction l with
  | nil => rfl
  | cons a rest ih =>
    have ha := h a (List.mem_cons_self a rest)
    have hrest := ih (fun b hb => h b (List.mem_cons_of_mem a hb))
    cases hFa : F a with
    | none =>
      rw [hFa] at ha
      simp only [List.filterMap_cons, hFa, List.map_cons, List.flatten_cons, ha,
        List.nil_append]
      exact hrest
    | some c =>
      rw [hFa] at ha
      simp only [List.filterMap_cons, hFa, List.map_cons, List.flatten_cons, ha]
      rw [hrest]

theorem placedNotesOfTrack_of_clips_nil (p : Project) (t : Track)
    (h : trackClipsOf p t = []) : placedNotesOfTrack p t = [] := by
  unfold placedNotesOfTrack
  rw [h]
  rfl

theorem parsed_exported_tracks (p : Project) (ht : p.tempo ≠ 0) :
    parseWire (toWire (exportProjectToMidi p))
      = ⟨[p.tempo], [(p.timeSignature.numerator, p.timeSignature.denominator)],
         (p.tracks.filterMap (exportTrackFile p)).map (fun ft =>
           ⟨ft.name, ft.channel, ft.notes.map (fun fn =>
             decodeWireNote p.tempo (encodeFileNote p.tempo fn))⟩)⟩ := by
  simp only [parseWire, toWire, exportProjectToMidi, List.head?_cons, Option.getD_some,
    jsOr, if_neg ht, List.map_map]
  congr 1
  refine List.map_congr_left (fun ft _ => ?_)
  simp [Function.comp, List.map_map]

theorem roundTripTrack_eq (p : Project) (tpb : ℚ) (t : Track) (ht : p.tempo ≠ 0)
    (hcov : ∀ a ∈ p.arrangementClips, a.clipType = "midi" ∧ clipResolves p a = true)
    (hvalid : ∀ c ∈ p.midiClips, ∀ n ∈ c.notes, validNoteData n)
    (hbar : ∀ a ∈ p.arrangementClips, isNatLike a.startBar) :
    roundTripTrack p tpb t
      = if trackClipsOf p t = [] then none else some (importedClipFor p tpb t) := by
  by_cases hcl : trackClipsOf p t = []
  · rw [if_pos hcl]
    unfold roundTripTrack exportTrackFile
    rw [if_pos hcl]
    rfl
  · rw [if_neg hcl]
    unfold roundTripTrack
    rw [exportTrackFile_eq p t hcov hcl]
    have hplaced : placedNotesOfTrack p t ≠ [] := placedNotesOfTrack_ne_nil p t hcov hcl
    have hkey : (((placedNotesOfTrack p t).map (fun x => fileNoteOf p.tempo x.1 x.2)).map
        (fun fn => decodeWireNote p.tempo (encodeFileNote p.tempo fn))).map
          (importNoteRaw p.tempo)
        = (placedNotesOfTrack p t).map noteImage := by
      rw [List.map_map, List.map_map]
      refine List.map_congr_left (fun x hx => ?_)
      obtain ⟨⟨a, ha, hxa⟩, c, hc, hxn⟩ := mem_placedNotesOfTrack p t x hx
      have hb : isNatLike x.1 := by rw [hxa]; exact hbar a ha
      have hn : validNoteData x.2 := hvalid c hc x.2 hxn
      show importNoteRaw p.tempo (decodeWireNote p.tempo (encodeFileNote p.tempo
        (fileNoteOf p.tempo x.1 x.2))) = noteImage x
      rw [roundTripNote p.tempo ht x.1 x.2 hb hn]
      rfl
    rw [Option.some_bind]
    rw [if_neg (by simp [hplaced])]
    congr 1
    simp only [importTrack]
    rw [hkey]
    have hm : ((placedNotesOfTrack p t).map noteImage).map MidiNote.startTick
        = (placedNotesOfTrack p t).map absTickQ := by
      rw [List.map_map]
      exact List.map_congr_left (fun x _ => rfl)
    have hlat : ((placedNotesOfTrack p t).map noteImage).map
          (fun n => n.startTick + n.durationTick)
        = (placedNotesOfTrack p t).map (fun x => absTickQ x + x.2.durationTick) := by
      rw [List.map_map]
      exact List.map_congr_left (fun x _ => rfl)
    rw [hm, hlat]
    unfold importedClipFor
    simp only [ImportedTrack.mk.injEq]
    refine ⟨?_, by trivial, by trivial, by trivial⟩
    rw [List.map_map]
    exact List.map_congr_left (fun x _ => rfl)

/-- C1 (amended): for a project with valid integer note data whose
arrangement clips are midi clips resolving to nonempty note lists,
re-importing the exported file succeeds and yields the same number of
notes with identical pitches and durations at the same tempo and time
signature; each track's start ticks come back shifted down by the track's
earliest absolute tick (exactly, so pairwise differences within a track
are preserved); velocities are not preserved: the export writes the 0–127
velocity into the codec's normalized 0–1 velocity field, so a velocity 0
returns as 0 and any valid velocity ≥ 1 returns as 100. -/
theorem export_import_roundTrip (p : Project)
    (htempo : 0 < p.tempo)
    (hcov : ∀ a ∈ p.arrangementClips, a.clipType = "midi" ∧ clipResolves p a = true)
    (hvalid : ∀ c ∈ p.midiClips, ∀ n ∈ c.notes, validNoteData n)
    (hbar : ∀ a ∈ p.arrangementClips, isNatLike a.startBar)
    (hne : ∃ t ∈ p.tracks, trackClipsOf p t ≠ []) :
    ∃ r, importMidiFromArrayBuffer (exportedBuffer p) = .ok r ∧
      r.tempoSet = some p.tempo ∧
      r.timeSigSet = some (p.timeSignature.numerator, p.timeSignature.denominator) ∧
      (r.clips.map (fun c => c.notes.map MidiNote.pitch)).flatten
        = (placedNotes p).map (fun x => x.2.pitch) ∧
      (r.clips.map (fun c => c.notes.length)).sum = (placedNotes p).length ∧
      (r.clips.map (fun c => c.notes.map MidiNote.velocity)).flatten
        = (placedNotes p).map (fun x => if x.2.velocity = 0 then (0 : ℚ) else 100) ∧
      (r.clips.map (fun c => c.notes.map MidiNote.durationTick)).flatten
        = (placedNotes p).map (fun x => x.2.durationTick) ∧
      (r.clips.map (fun c => c.notes.map MidiNote.startTick)).flatten
        = (p.tracks.map (normalizedAbsTicks p)).flatten := by
  have ht : p.tempo ≠ 0 := ne_of_gt htempo
  have hpfile := parsed_exported_tracks p ht
  obtain ⟨t0, ht0, hc0⟩ := hne
  have hexp0 := exportTrackFile_eq p t0 hcov hc0
  have hplaced0 := placedNotesOfTrack_ne_nil p t0 hcov hc0
  have hfilter : ¬ ((parseWire (toWire (exportProjectToMidi p))).tracks.filter
      (fun tr => tr.notes ≠ []) = []) := by
    rw [hpfile]
    intro hnil
    rw [List.filter_eq_nil_iff] at hnil
    have hmem : (⟨t0.name, 0, ((placedNotesOfTrack p t0).map
        (fun x => fileNoteOf p.tempo x.1 x.2)).map
          (fun fn => decodeWireNote p.tempo (encodeFileNote p.tempo fn))⟩ : FileTrack)
        ∈ (p.tracks.filterMap (exportTrackFile p)).map (fun ft =>
            (⟨ft.name, ft.channel, ft.notes.map (fun fn =>
              decodeWireNote p.tempo (encodeFileNote p.tempo fn))⟩ : FileTrack)) := by
      refine List.mem_map.mpr ⟨⟨t0.name, 0, (placedNotesOfTrack p t0).map
        (fun x => fileNoteOf p.tempo x.1 x.2)⟩, ?_, rfl⟩
      exact List.mem_filterMap.mpr ⟨t0, ht0, hexp0⟩
    have hcontra := hnil _ hmem
    simp [hplaced0] at hcontra
  have hok : importMidiFromArrayBuffer (exportedBuffer p)
      = .ok (importOk (parseWire (toWire (exportProjectToMidi p)))) := by
    simp only [importMidiFromArrayBuffer, exportedBuffer, Bool.true_eq_false, if_false]
    rw [if_neg hfilter]
  have hTP : importTempo (parseWire (toWire (exportProjectToMidi p))) = p.tempo := by
    rw [hpfile]
    simp [importTempo, jsOr, ht]
  have hclips : (importOk (parseWire (toWire (exportProjectToMidi p)))).clips
      = p.tracks.filterMap
          (roundTripTrack p (importTicksPerBar (parseWire (toWire (exportProjectToMidi p))))) := by
    show (parseWire (toWire (exportProjectToMidi p))).tracks.filterMap (fun tr =>
        if tr.notes = [] then none
        else some (importTrack (importTempo (parseWire (toWire (exportProjectToMidi p))))
          (importTicksPerBar (parseWire (toWire (exportProjectToMidi p)))) tr))
      = _
    rw [hTP]
    generalize importTicksPerBar (parseWire (toWire (exportProjectToMidi p))) = TPB
    conv_lhs => rw [hpfile]
    rw [List.filterMap_map, List.filterMap_filterMap]
    refine List.filterMap_congr (fun t _ => ?_)
    rfl
  have hpitch : ∀ TPB : ℚ, ((p.tracks.filterMap (roundTripTrack p TPB)).map
      (fun c => c.notes.map MidiNote.pitch)).flatten
        = (placedNotes p).map (fun x => x.2.pitch) := by
    intro TPB
    rw [flatten_filterMap_eq (roundTripTrack p TPB) (fun c => c.notes.map MidiNote.pitch)
      (fun t => (placedNotesOfTrack p t).map (fun x => x.2.pitch)) p.tracks ?_]
    · unfold placedNotes
      rw [List.map_flatten, List.map_map]
      rfl
    · intro t htm
      rw [roundTripTrack_eq p TPB t ht hcov hvalid hbar]
      by_cases hcl : trackClipsOf p t = []
      · simp only [if_pos hcl]
        rw [placedNotesOfTrack_of_clips_nil p t hcl]
        rfl
      · simp only [if_neg hcl, importedClipFor, List.map_map]
        exact List.map_congr_left (fun x _ => rfl)
  have hvelo : ∀ TPB : ℚ, ((p.tracks.filterMap (roundTripTrack p TPB)).map
      (fun c => c.notes.map MidiNote.velocity)).flatten
        = (placedNotes p).map (fun x => if x.2.velocity = 0 then (0 : ℚ) else 100) := by
    intro TPB
    rw [flatten_filterMap_eq (roundTripTrack p TPB) (fun c => c.notes.map MidiNote.velocity)
      (fun t => (placedNotesOfTrack p t).map
        (fun x => if x.2.velocity = 0 then (0 : ℚ) else 100)) p.tracks ?_]
    · unfold placedNotes
      rw [List.map_flatten, List.map_map]
      rfl
    · intro t htm
      rw [roundTripTrack_eq p TPB t ht hcov hvalid hbar]
      by_cases hcl : trackClipsOf p t = []
      · simp only [if_pos hcl]
        rw [placedNotesOfTrack_of_clips_nil p t hcl]
        rfl
      · simp only [if_neg hcl, importedClipFor, List.map_map]
        exact List.map_congr_left (fun x _ => rfl)
  have hdura : ∀ TPB : ℚ, ((p.tracks.filterMap (roundTripTrack p TPB)).map
      (fun c => c.notes.map MidiNote.durationTick)).flatten
        = (placedNotes p).map (fun x => x.2.durationTick) := by
    intro TPB
    rw [flatten_filterMap_eq (roundTripTrack p TPB) (fun c => c.notes.map MidiNote.durationTick)
      (fun t => (placedNotesOfTrack p t).map (fun x => x.2.durationTick)) p.tracks ?_]
    · unfold placedNotes
      rw [List.map_flatten, List.map_map]
      rfl
    · intro t htm
      rw [roundTripTrack_eq p TPB t ht hcov hvalid hbar]
      by_cases hcl : trackClipsOf p t = []
      · simp only [if_pos hcl]
        rw [placedNotesOfTrack_of_clips_nil p t hcl]
        rfl
      · simp only [if_neg hcl, importedClipFor, List.map_map]
        exact List.map_congr_left (fun x _ => rfl)
  have hstart : ∀ TPB : ℚ, ((p.tracks.filterMap (roundTripTrack p TPB)).map
      (fun c => c.notes.map MidiNote.startTick)).flatten
        = (p.tracks.map (normalizedAbsTicks p)).flatten := by
    intro TPB
    rw [flatten_filterMap_eq (roundTripTrack p TPB) (fun c => c.notes.map MidiNote.startTick)
      (normalizedAbsTicks p) p.tracks ?_]
    intro t htm
    rw [roundTripTrack_eq p TPB t ht hcov hvalid hbar]
    by_cases hcl : trackClipsOf p t = []
    · simp only [if_pos hcl]
      unfold normalizedAbsTicks
      rw [placedNotesOfTrack_of_clips_nil p t hcl]
      rfl
    · simp only [if_neg hcl, importedClipFor, normalizedAbsTicks, List.map_map]
      exact List.map_congr_left (fun x _ => rfl)
  have hcount : ∀ TPB : ℚ, ((p.tracks.filterMap (roundTripTrack p TPB)).map
      (fun c => c.notes.length)).sum = (placedNotes p).length := by
    intro TPB
    have h1 : ((p.tracks.filterMap (roundTripTrack p TPB)).map (fun c => c.notes.length))
        = ((p.tracks.filterMap (roundTripTrack p TPB)).map
            (fun c => c.notes.map MidiNote.pitch)).map List.length := by
      rw [List.map_map]
      exact List.map_congr_left (fun c _ => (List.length_map _ _).symm)
    rw [h1, ← List.length_flatten, hpitch TPB, List.length_map]
  refine ⟨importOk (parseWire (toWire (exportProjectToMidi p))), hok, ?_, ?_, ?_, ?_, ?_, ?_, ?_⟩
  · simp [importOk, hpfile]
  · simp [importOk, hpfile]
  · rw [hclips]
    exact hpitch _
  · rw [hclips]
    exact hcount _
  · rw [hclips]
    exact hvelo _
  · rw [hclips]
    exact hdura _
  · rw [hclips]
    exact hstart _

/-- C1 counterexample: for the one-note project `sampleProjectC1`
(velocity 60, startTick 480), re-importing the exported file yields a
note with velocity 100 (not within ±1 of 60) and startTick 0 (not within
±1 of 480): the claim's velocity and start-tick clauses fail. -/
theorem roundTrip_counterexample :
    importMidiFromArrayBuffer (exportedBuffer sampleProjectC1)
      = .ok ⟨some 120, some (4, 4), [⟨[⟨60, 0, 480, 100, 0⟩], 0, 1, 1⟩]⟩ ∧
    ¬ (|(100 : ℚ) - 60| ≤ 1) ∧ ¬ (|(0 : ℚ) - 480| ≤ 1) := by
  refine ⟨?_, by rw [abs_sub_le_iff]; norm_num, by rw [abs_sub_le_iff]; norm_num⟩
  have hc : (⌈(1:ℚ)/4⌉ : ℤ) = 1 := by
    rw [Int.ceil_eq_iff] ; norm_num
  norm_num [importMidiFromArrayBuffer, exportedBuffer, importOk, importTrack, importNoteRaw,
    importTempo, importTicksPerBar, parseWire, toWire, encodeFileNote, decodeWireNote,
    exportProjectToMidi, exportTrackFile, trackClipsOf, exportArrClipNotes, fileNoteOf,
    ticksToSeconds, sampleProjectC1, jsOr, jround, clamp7, secondsToTicksRaw, minListQ,
    maxListQ, TICKS_PER_BAR, TICKS_PER_QUARTER_NOTE, List.filterMap_cons, List.filter_cons, hc]

/-- Witness for C1 (amended) at the concrete project `sampleProjectC1`. -/
theorem export_import_roundTrip_witness :
    ∃ r, importMidiFromArrayBuffer (exportedBuffer sampleProjectC1) = .ok r ∧
      r.tempoSet = some sampleProjectC1.tempo ∧
      r.timeSigSet = some (sampleProjectC1.timeSignature.numerator,
        sampleProjectC1.timeSignature.denominator) ∧
      (r.clips.map (fun c => c.notes.map MidiNote.pitch)).flatten
        = (placedNotes sampleProjectC1).map (fun x => x.2.pitch) ∧
      (r.clips.map (fun c => c.notes.length)).sum = (placedNotes sampleProjectC1).length ∧
      (r.clips.map (fun c => c.notes.map MidiNote.velocity)).flatten
        = (placedNotes sampleProjectC1).map (fun x => if x.2.velocity = 0 then (0 : ℚ) else 100) ∧
      (r.clips.map (fun c => c.notes.map MidiNote.durationTick)).flatten
        = (placedNotes sampleProjectC1).map (fun x => x.2.durationTick) ∧
      (r.clips.map (fun c => c.notes.map MidiNote.startTick)).flatten
        = (sampleProjectC1.tracks.map (normalizedAbsTicks sampleProjectC1)).flatten :=
  export_import_roundTrip sampleProjectC1
    (by norm_num [sampleProjectC1])
    (by
      intro a ha
      simp only [sampleProjectC1, List.mem_singleton] at ha
      subst ha
      exact ⟨rfl, by simp [clipResolves, sampleProjectC1]⟩)
    (by
      intro c hc n hn
      simp only [sampleProjectC1, List.mem_singleton] at hc
      subst hc
      simp only [List.mem_singleton] at hn
      subst hn
      refine ⟨⟨?_, ?_⟩, ?_, ⟨?_, ?_⟩, ?_, ⟨?_, ?_⟩, ⟨?_, ?_⟩⟩ <;> norm_num)
    (by
      intro a ha
      simp only [sampleProjectC1, List.mem_singleton] at ha
      subst ha
      exact ⟨rfl, by norm_num⟩)
    ⟨⟨"t1", "T1", some "piano", 1, 0, false⟩, by simp [sampleProjectC1],
      by simp [trackClipsOf, sampleProjectC1]⟩

end NextBeat
